import Mathlib

/-!
Verification of the memory-context-overlay pipeline (screen capture → OCR
extraction → LLM context aggregation) against its natural-language
specification.

The Lean definitions below are a shallow embedding of the Python sources:

* `dequeAppend` / `dequeAppendAll` model `collections.deque(maxlen = C)`
  appends, used by `ScreenCapture.frame_buffer` (capacity `int(fps *
  buffer_duration)`), `OCRExtractor.text_buffer` (capacity 200) and
  `ContextAnalyzer.key_events` (capacity `max_history`, default 50).
* `stripChars` / `pyStrip` model Python's `str.strip()`.
* `TextRecord`, `extract_text`, `process_frame`, `getCombinedText` model
  `src/ocr_extractor.py`.
* `Json`, `jsonParse` (a model of `json.loads` covering objects, arrays,
  strings, integers, booleans and null), `cleanResponse`, `mergeResult` and
  `analyzeText` model `ContextAnalyzer._analyze_text` in
  `src/context_analyzer.py`.

Timestamps are modelled as rationals (seconds); OCR confidences as
rationals.  Fallible Python code is modelled with `Except`/`Option`, and a
`Bool` success flag records whether the `try:` body of `_analyze_text` ran
to completion (exceptions raised mid-merge leave the partial state, exactly
as mutation of `self` does in Python).
-/

/-- Code point of the backtick character (used in the markdown fences that
`_analyze_text` strips; written via `Char.ofNat` only to keep the source
free of raw backticks). -/
def btChar : Char := Char.ofNat 96

/-! ## Bounded buffers: `collections.deque(maxlen = C)` -/

/-- One `deque.append` on a deque with `maxlen = cap`: the new element goes
to the right and, when the deque is full, the oldest (leftmost) element is
discarded. -/
def dequeAppend (cap : Nat) (xs : List α) (x : α) : List α :=
  (xs ++ [x]).drop (xs.length + 1 - cap)

/-- A whole sequence of `deque.append`s starting from the empty deque. -/
def dequeAppendAll (cap : Nat) (xs : List α) : List α :=
  xs.foldl (dequeAppend cap) []

/-- Frame-buffer capacity in `ScreenCapture.__init__`:
`max_frames = int(fps * buffer_duration)`. -/
def frameBufferCap (fps : ℚ) (bufferDuration : ℕ) : ℕ :=
  (fps * bufferDuration).floor.toNat

/-- Text-buffer capacity in `OCRExtractor.__init__`: `deque(maxlen=200)`. -/
def textBufferCap : Nat := 200

/-- Default key-event capacity in `ContextAnalyzer.__init__`:
`max_history: int = 50`. -/
def keyEventsDefaultCap : Nat := 50

theorem dequeAppend_length (cap : Nat) (xs : List α) (x : α) :
    (dequeAppend cap xs x).length = min (xs.length + 1) cap := by
  simp [dequeAppend]
  omega

theorem foldl_dequeAppend (cap : Nat) (xs : List α) :
    ∀ acc : List α, acc.length ≤ cap →
      xs.foldl (dequeAppend cap) acc =
        (acc ++ xs).drop (acc.length + xs.length - cap) := by
  induction xs with
  | nil =>
      intro acc hacc
      simp [List.drop_eq_nil_of_le, Nat.sub_eq_zero_of_le hacc]
  | cons x xs ih =>
      intro acc hacc
      have hlen : (dequeAppend cap acc x).length = min (acc.length + 1) cap :=
        dequeAppend_length cap acc x
      have hle : (dequeAppend cap acc x).length ≤ cap := by omega
      calc (x :: xs).foldl (dequeAppend cap) acc
          = xs.foldl (dequeAppend cap) (dequeAppend cap acc x) := rfl
      _ = (dequeAppend cap acc x ++ xs).drop
            ((dequeAppend cap acc x).length + xs.length - cap) :=
            ih _ hle
      _ = (acc ++ x :: xs).drop (acc.length + (x :: xs).length - cap) := by
            have hsplit : ((acc ++ [x]) ++ xs).drop (acc.length + 1 - cap)
                = (acc ++ [x]).drop (acc.length + 1 - cap) ++ xs := by
              rw [List.drop_append_eq_append_drop]
              have h0 : acc.length + 1 - cap - (acc ++ [x]).length = 0 := by
                simp
              rw [h0, List.drop_zero]
            rw [dequeAppend, ← hsplit, List.drop_drop]
            have h1 : (acc ++ [x]) ++ xs = acc ++ x :: xs := by simp
            rw [h1]
            congr 1
            simp only [List.length_drop, List.length_append, List.length_cons,
              List.length_nil]
            omega

/-- **C2.** For every bounded buffer in the system (frame buffer of capacity
`int(fps * buffer_duration)`, text buffer of capacity 200, key-event
collection of capacity 50) and every sequence of N appends, the buffer
afterwards holds exactly `min N C` items for its capacity `C`, namely the
`C` most recently appended items in insertion order (the `N - C` oldest
having been evicted first). -/
theorem deque_buffer_keeps_most_recent (cap : Nat) (xs : List α) :
    dequeAppendAll cap xs = xs.drop (xs.length - cap) ∧
    (dequeAppendAll cap xs).length = min xs.length cap ∧
    frameBufferCap 3 60 = 180 ∧ textBufferCap = 200 ∧ keyEventsDefaultCap = 50 := by
  have h := foldl_dequeAppend cap xs [] (by simp)
  have h1 : dequeAppendAll cap xs = xs.drop (xs.length - cap) := by
    simpa [dequeAppendAll] using h
  refine ⟨h1, ?_, by unfold frameBufferCap; norm_num; decide, rfl, rfl⟩
  rw [h1, List.length_drop]
  omega

/-! ## Python string helpers -/

/-- Characters removed by Python `str.strip()` (the `\x0b`/`\x0c` cases are
vertical tab and form feed). -/
def isPySpace (c : Char) : Bool :=
  c = ' ' || c = '\t' || c = '\n' || c = '\r' || c = '\x0b' || c = '\x0c'

/-- Left trim, as in Python `str.lstrip()`. -/
def ltrimChars (cs : List Char) : List Char := cs.dropWhile isPySpace

/-- Right trim, as in Python `str.rstrip()`. -/
def rtrimChars (cs : List Char) : List Char :=
  (cs.reverse.dropWhile isPySpace).reverse

/-- Python `str.strip()` on a character list. -/
def stripChars (cs : List Char) : List Char := rtrimChars (ltrimChars cs)

/-- Python `str.strip()`. -/
def pyStrip (s : String) : String := String.mk (stripChars s.data)

/-! ## OCR extraction stage (`src/ocr_extractor.py`) -/

/-- One entry of `OCRExtractor.text_buffer`:
`{'timestamp': ..., 'text': ..., 'confidence': ...}`.  Timestamps are
seconds, confidences rationals standing in for Python floats. -/
structure TextRecord where
  timestamp : ℚ
  text : String
  confidence : ℚ
deriving DecidableEq, Repr

/-- Python exceptions relevant to the embedded code paths. -/
inductive PyErr where
  | attributeError
  | typeError
  | runtimeError
deriving DecidableEq, Repr

/-- `OCRExtractor.extract_text`: aggregates the recognizer's
`(bbox, text, confidence)` results into `(full_text, mean_confidence)`.
The recognizer call (and the surrounding image conversion) may raise; the
`try/except` returns `("", 0.0)` on any error, and `("", 0.0)` when there
are no results. -/
def extract_text (results : Except PyErr (List (Unit × String × ℚ))) :
    String × ℚ :=
  match results with
  | Except.error _ => ("", 0)
  | Except.ok rs =>
      if rs.isEmpty then ("", 0)
      else
        let texts := rs.map (fun r => r.2.1)
        let confidences := rs.map (fun r => r.2.2)
        (String.intercalate " " texts,
          confidences.sum / (confidences.length : ℚ))

/-- Mutable fields of `OCRExtractor` touched by `process_frame`. -/
structure OCRState where
  text_buffer : List TextRecord
  processing : Bool
  last_extraction_time : Option ℚ
deriving DecidableEq, Repr

/-- `OCRExtractor.__init__` buffer/flag state. -/
def initOCRState : OCRState :=
  { text_buffer := [], processing := false, last_extraction_time := none }

/-- `OCRExtractor.process_frame`.  `nowCheck` is the `datetime.now()` used
for the rate-limit check, `extracted` the `(text, confidence)` pair
returned by `extract_text`, and `nowDone` the `datetime.now()` stored as
`_last_extraction_time` after a text-producing extraction.  Returns the
state after the call together with the returned text (`none` models
Python's `None`). -/
def process_frame (st : OCRState) (nowCheck : ℚ) (frameTs : ℚ)
    (extracted : String × ℚ) (nowDone : ℚ) : OCRState × Option String :=
  -- Skip if already processing
  if st.processing then (st, none)
  else
    -- Rate limit: process at most once per second
    match st.last_extraction_time with
    | some t =>
        if nowCheck - t < 1 then (st, none)
        else
          let (text, confidence) := extracted
          if pyStrip text ≠ "" then
            ({ text_buffer := dequeAppend textBufferCap st.text_buffer
                  { timestamp := frameTs, text := text, confidence := confidence },
               processing := false,
               last_extraction_time := some nowDone }, some text)
          else ({ st with processing := false }, none)
    | none =>
        let (text, confidence) := extracted
        if pyStrip text ≠ "" then
          ({ text_buffer := dequeAppend textBufferCap st.text_buffer
                { timestamp := frameTs, text := text, confidence := confidence },
             processing := false,
             last_extraction_time := some nowDone }, some text)
        else ({ st with processing := false }, none)

/-- The guard conditions of `process_frame` (lines 111–118): an extraction
is attempted exactly when no extraction is in flight and the minimum
1-second interval since the last recorded extraction has elapsed. -/
def extractionAttempted (st : OCRState) (nowCheck : ℚ) : Bool :=
  !st.processing &&
    (match st.last_extraction_time with
     | none => true
     | some t => decide (1 ≤ nowCheck - t))

/-- `OCRExtractor.get_combined_text`, dedup loop: for each record, `text =
record['text'].strip()`, `text_key = text[:50].lower()`; the stripped text
is kept when its key is unseen.  `seen` models the `seen_texts` set. -/
def dedupTexts (seen : List (List Char)) : List TextRecord → List String
  | [] => []
  | r :: rs =>
      let text := stripChars r.text.data
      let key := (text.take 50).map Char.toLower
      if key ∈ seen then dedupTexts seen rs
      else String.mk text :: dedupTexts (key :: seen) rs

/-- `OCRExtractor.get_combined_text` applied to the records of the queried
window (the output of `get_recent_text`): `"\n".join(unique_texts)`. -/
def getCombinedText (records : List TextRecord) : String :=
  String.intercalate "\n" (dedupTexts [] records)

/-- The distinctness key of the spec: the lowercased first 50 characters of
the record's stripped text. -/
def recordKey (r : TextRecord) : List Char :=
  ((stripChars r.text.data).take 50).map Char.toLower

/-- Modelled from the spec's words for comparison with `getCombinedText`:
keep only the first record of each distinctness class, in insertion
order. -/
def keepFirstRecords (seen : List (List Char)) : List TextRecord → List TextRecord
  | [] => []
  | r :: rs =>
      if recordKey r ∈ seen then keepFirstRecords seen rs
      else r :: keepFirstRecords (recordKey r :: seen) rs

/-- The combined text as claim C3 words it: the kept records' texts (as
stored in the records) joined with newlines. -/
def claimedCombinedText (records : List TextRecord) : String :=
  String.intercalate "\n" ((keepFirstRecords [] records).map (fun r => r.text))

theorem dedupTexts_eq_keepFirst (records : List TextRecord) :
    ∀ seen, dedupTexts seen records =
      (keepFirstRecords seen records).map (fun r => String.mk (stripChars r.text.data)) := by
  induction records with
  | nil => intro seen; rfl
  | cons r rs ih =>
      intro seen
      by_cases h : recordKey r ∈ seen
      · simp [dedupTexts, keepFirstRecords, recordKey] at h ⊢
        simp [h, ih]
      · simp [dedupTexts, keepFirstRecords, recordKey] at h ⊢
        simp [h, ih]

/-- **C3 (counterexample).** The claim says `get_combined_text` joins "the
records' texts"; the code joins the *stripped* texts.  A single record
whose text carries surrounding whitespace is joined stripped, so the output
differs from the claimed join of record texts. -/
theorem getCombinedText_strips_text_counterexample :
    getCombinedText [{ timestamp := 0, text := " a ", confidence := 0 }] ≠
      claimedCombinedText [{ timestamp := 0, text := " a ", confidence := 0 }] := by
  decide

/-- **C3 (amended).** For every sequence of text records in the queried
window, `get_combined_text` returns the records' *stripped* texts joined in
insertion order keeping only the first record of each distinctness class,
where two records are in the same class exactly when the lowercased first
50 characters of their stripped texts are equal; every later record whose
case-insensitive 50-character prefix already occurred in the window is
dropped from the output. -/
theorem getCombinedText_dedups_by_prefix (records : List TextRecord) :
    getCombinedText records =
      String.intercalate "\n"
        ((keepFirstRecords [] records).map (fun r => String.mk (stripChars r.text.data))) := by
  rw [getCombinedText, dedupTexts_eq_keepFirst]

theorem pyStrip_empty : pyStrip "" = "" := rfl

theorem process_frame_empty_result (st : OCRState) (nowCheck frameTs nowDone : ℚ)
    (h : st.processing = false) :
    process_frame st nowCheck frameTs ("", 0) nowDone = (st, none) := by
  obtain ⟨buf, proc, last⟩ := st
  simp only at h
  subst h
  cases last with
  | none => simp [process_frame, pyStrip_empty]
  | some t =>
      by_cases hlt : nowCheck - t < 1 <;>
        simp [process_frame, pyStrip_empty, hlt]

/-- **C7 (counterexample).** The claim says every call less than 1 second
after the previous extraction is skipped (returns `None`), so that any two
extractions actually performed are at least 1 second apart.  But an
extraction whose recognizer output is empty does not update
`_last_extraction_time` (it is only set in the `if text.strip():` branch),
so a call made less than 1 second later — here with zero elapsed time — is
not skipped: both calls pass the guards, and the second one performs a full
extraction and returns its text. -/
theorem process_frame_rate_limit_counterexample :
    extractionAttempted initOCRState 0 = true ∧
    (process_frame initOCRState 0 0 (extract_text (Except.ok [])) 0).1.last_extraction_time
      = none ∧
    extractionAttempted
      (process_frame initOCRState 0 0 (extract_text (Except.ok [])) 0).1 0 = true ∧
    (process_frame (process_frame initOCRState 0 0 (extract_text (Except.ok [])) 0).1
        0 0 ("hello", 1) 0).2 = some "hello" := by
  decide

/-- **C7 (amended).** Every call to `process_frame` made while an extraction
is already in flight, or less than 1 second after the previous
*text-producing* extraction (the last time `_last_extraction_time` was
recorded), returns the skipped indicator `None` with the state unchanged
(in particular no `TextRecord` is appended); consequently any extraction
actually attempted happens at least 1 second after the last recorded
extraction time.  (Extractions whose recognizer output is empty do not
update the clock, so two *performed* extractions can be less than 1 second
apart.) -/
theorem process_frame_single_flight_rate_limit (st : OCRState)
    (nowCheck frameTs : ℚ) (extracted : String × ℚ) (nowDone : ℚ) :
    (st.processing = true ∨
        (∃ t, st.last_extraction_time = some t ∧ nowCheck - t < 1) →
      process_frame st nowCheck frameTs extracted nowDone = (st, none)) ∧
    (extractionAttempted st nowCheck = true →
      ∀ t, st.last_extraction_time = some t → 1 ≤ nowCheck - t) := by
  constructor
  · rintro (h | ⟨t, ht, hlt⟩)
    · simp [process_frame, h]
    · by_cases hp : st.processing
      · simp [process_frame, hp]
      · simp [process_frame, hp, ht, hlt]
  · intro h t ht
    simp [extractionAttempted, ht] at h
    exact h.2

/-- Witness for `process_frame_single_flight_rate_limit`: a call made while
an extraction is in flight is a no-op returning `None`. -/
theorem process_frame_single_flight_witness :
    process_frame
        { text_buffer := [], processing := true, last_extraction_time := none }
        0 0 ("x", 1) 0
      = ({ text_buffer := [], processing := true, last_extraction_time := none },
         none) :=
  (process_frame_single_flight_rate_limit
    { text_buffer := [], processing := true, last_extraction_time := none }
    0 0 ("x", 1) 0).1 (Or.inl rfl)

/-- **C9.** An OCR-engine failure is fully absorbed by the extraction
stage: `extract_text` is total and maps every recognizer error to
`("", 0.0)`, and the enclosing `process_frame` call then appends no
`TextRecord`, returns `None`, and leaves the in-flight flag false on exit,
so a failed extraction never permanently blocks future extractions. -/
theorem extract_error_absorbed (e : PyErr) (st : OCRState)
    (nowCheck frameTs nowDone : ℚ) (h : st.processing = false) :
    extract_text (Except.error e) = ("", 0) ∧
    process_frame st nowCheck frameTs (extract_text (Except.error e)) nowDone
      = (st, none) ∧
    (process_frame st nowCheck frameTs (extract_text (Except.error e))
        nowDone).1.processing = false := by
  have he : extract_text (Except.error e) = ("", 0) := rfl
  have hpf := process_frame_empty_result st nowCheck frameTs nowDone h
  refine ⟨he, by rw [he]; exact hpf, by rw [he, hpf]; exact h⟩

/-- Witness for `extract_error_absorbed` at the initial extractor state and
a concrete recognizer error. -/
theorem extract_error_absorbed_witness :
    extract_text (Except.error PyErr.runtimeError) = ("", 0) ∧
    process_frame initOCRState 0 0
        (extract_text (Except.error PyErr.runtimeError)) 0
      = (initOCRState, none) :=
  ⟨(extract_error_absorbed PyErr.runtimeError initOCRState 0 0 0 rfl).1,
   (extract_error_absorbed PyErr.runtimeError initOCRState 0 0 0 rfl).2.1⟩

/-! ## JSON values (the result of `json.loads`) -/

/-- Parsed JSON values.  Python's `json.loads` yields `None`/`bool`/
`int`/`float`/`str`/`list`/`dict`; floats are outside the scope of the
claims and are not modelled (the parser below rejects them), and objects
are association lists (the embedded responses use distinct keys). -/
inductive Json where
  | null
  | bool (b : Bool)
  | num (n : Int)
  | str (s : String)
  | arr (elems : List Json)
  | obj (fields : List (String × Json))

mutual
def Json.beq : Json → Json → Bool
  | .null, .null => true
  | .bool a, .bool b => a == b
  | .num a, .num b => a == b
  | .str a, .str b => a == b
  | .arr xs, .arr ys => Json.beqList xs ys
  | .obj xs, .obj ys => Json.beqFields xs ys
  | _, _ => false

def Json.beqList : List Json → List Json → Bool
  | [], [] => true
  | x :: xs, y :: ys => Json.beq x y && Json.beqList xs ys
  | _, _ => false

def Json.beqFields : List (String × Json) → List (String × Json) → Bool
  | [], [] => true
  | (k1, v1) :: xs, (k2, v2) :: ys =>
      k1 == k2 && Json.beq v1 v2 && Json.beqFields xs ys
  | _, _ => false
end

mutual
theorem Json.eq_of_beq : ∀ a b : Json, Json.beq a b = true → a = b
  | .null, .null, _ => rfl
  | .bool a, .bool b, h => by
      simp only [Json.beq, beq_iff_eq] at h; rw [h]
  | .num a, .num b, h => by
      simp only [Json.beq, beq_iff_eq] at h; rw [h]
  | .str a, .str b, h => by
      simp only [Json.beq, beq_iff_eq] at h; rw [h]
  | .arr xs, .arr ys, h => by
      rw [Json.eqList_of_beq xs ys (by simpa only [Json.beq] using h)]
  | .obj xs, .obj ys, h => by
      rw [Json.eqFields_of_beq xs ys (by simpa only [Json.beq] using h)]
  | .null, .bool _, h | .null, .num _, h | .null, .str _, h | .null, .arr _, h
  | .null, .obj _, h
  | .bool _, .null, h | .bool _, .num _, h | .bool _, .str _, h | .bool _, .arr _, h
  | .bool _, .obj _, h
  | .num _, .null, h | .num _, .bool _, h | .num _, .str _, h | .num _, .arr _, h
  | .num _, .obj _, h
  | .str _, .null, h | .str _, .bool _, h | .str _, .num _, h | .str _, .arr _, h
  | .str _, .obj _, h
  | .arr _, .null, h | .arr _, .bool _, h | .arr _, .num _, h | .arr _, .str _, h
  | .arr _, .obj _, h
  | .obj _, .null, h | .obj _, .bool _, h | .obj _, .num _, h | .obj _, .str _, h
  | .obj _, .arr _, h => nomatch h

theorem Json.eqList_of_beq : ∀ a b : List Json, Json.beqList a b = true → a = b
  | [], [], _ => rfl
  | x :: xs, y :: ys, h => by
      simp only [Json.beqList, Bool.and_eq_true] at h
      rw [Json.eq_of_beq x y h.1, Json.eqList_of_beq xs ys h.2]
  | [], _ :: _, h => nomatch h
  | _ :: _, [], h => nomatch h

theorem Json.eqFields_of_beq :
    ∀ a b : List (String × Json), Json.beqFields a b = true → a = b
  | [], [], _ => rfl
  | (k1, v1) :: xs, (k2, v2) :: ys, h => by
      simp only [Json.beqFields, Bool.and_eq_true, beq_iff_eq] at h
      rw [h.1.1, Json.eq_of_beq v1 v2 h.1.2, Json.eqFields_of_beq xs ys h.2]
  | [], _ :: _, h => nomatch h
  | _ :: _, [], h => nomatch h
end

mutual
theorem Json.beq_refl : ∀ a : Json, Json.beq a a = true
  | .null => rfl
  | .bool a => by simp [Json.beq]
  | .num a => by simp [Json.beq]
  | .str a => by simp [Json.beq]
  | .arr xs => by simpa only [Json.beq] using Json.beqList_refl xs
  | .obj xs => by simpa only [Json.beq] using Json.beqFields_refl xs

theorem Json.beqList_refl : ∀ a : List Json, Json.beqList a a = true
  | [] => rfl
  | x :: xs => by
      simp only [Json.beqList, Bool.and_eq_true]
      exact ⟨Json.beq_refl x, Json.beqList_refl xs⟩

theorem Json.beqFields_refl : ∀ a : List (String × Json), Json.beqFields a a = true
  | [] => rfl
  | (k, v) :: xs => by
      simp only [Json.beqFields, Bool.and_eq_true, beq_self_eq_true, true_and]
      exact ⟨Json.beq_refl v, Json.beqFields_refl xs⟩
end

instance : DecidableEq Json := fun a b =>
  match h : Json.beq a b with
  | true => isTrue (Json.eq_of_beq a b h)
  | false => isFalse (fun hh => by
      rw [hh, Json.beq_refl] at h
      exact Bool.noConfusion h)

/-! ## A model of `json.loads` -/

/-- JSON inter-token whitespace. -/
def jsonWs (c : Char) : Bool :=
  c = ' ' || c = '\t' || c = '\n' || c = '\r'

def skipWs (cs : List Char) : List Char := cs.dropWhile jsonWs

/-- Scan a JSON string body (after the opening quote) up to the closing
quote, decoding the single-character escapes; `\u` escapes are outside the
scope of the embedded responses and are rejected. -/
def parseStrBody : List Char → Option (List Char × List Char)
  | [] => none
  | c :: rest =>
      if c = '"' then some ([], rest)
      else if c = '\\' then
        match rest with
        | [] => none
        | e :: rest2 =>
            let ec : Option Char :=
              if e = '"' then some '"'
              else if e = '\\' then some '\\'
              else if e = '/' then some '/'
              else if e = 'n' then some '\n'
              else if e = 't' then some '\t'
              else if e = 'r' then some '\r'
              else if e = 'b' then some '\x08'
              else if e = 'f' then some '\x0c'
              else none
            match ec with
            | none => none
            | some d =>
                match parseStrBody rest2 with
                | none => none
                | some (s, r) => some (d :: s, r)
      else
        match parseStrBody rest with
        | none => none
        | some (s, r) => some (c :: s, r)

def digitVal (c : Char) : Nat := c.toNat - 48

/-- A nonempty run of decimal digits, as a natural number. -/
def parseDigits (cs : List Char) : Option (Nat × List Char) :=
  let ds := cs.takeWhile Char.isDigit
  if ds.isEmpty then none
  else some (ds.foldl (fun a c => a * 10 + digitVal c) 0, cs.dropWhile Char.isDigit)

/-- A JSON number.  Only integers are modelled; a fractional part or an
exponent makes the model parser fail (the embedded responses never use
floats). -/
def parseNumber (cs : List Char) : Option (Json × List Char) :=
  let signed : Option (Int × List Char) :=
    match cs with
    | '-' :: rest =>
        match parseDigits rest with
        | none => none
        | some (n, r) => some (-(n : Int), r)
    | _ =>
        match parseDigits cs with
        | none => none
        | some (n, r) => some ((n : Int), r)
  match signed with
  | none => none
  | some (n, r) =>
      match r with
      | d :: _ => if d = '.' || d = 'e' || d = 'E' then none else some (.num n, r)
      | [] => some (.num n, [])

mutual

def parseValueF : Nat → List Char → Option (Json × List Char)
  | 0, _ => none
  | fuel + 1, cs0 =>
      let cs := skipWs cs0
      match cs with
      | [] => none
      | c :: rest =>
          if c = '"' then
            match parseStrBody rest with
            | none => none
            | some (s, r) => some (.str (String.mk s), r)
          else if c = '\x7b' then parseObjF fuel rest
          else if c = '[' then parseArrF fuel rest
          else if ("true".data).isPrefixOf cs then some (.bool true, cs.drop 4)
          else if ("false".data).isPrefixOf cs then some (.bool false, cs.drop 5)
          else if ("null".data).isPrefixOf cs then some (.null, cs.drop 4)
          else parseNumber cs

def parseArrF : Nat → List Char → Option (Json × List Char)
  | 0, _ => none
  | fuel + 1, cs0 =>
      match skipWs cs0 with
      | ']' :: rest => some (.arr [], rest)
      | cs =>
          match parseValueF fuel cs with
          | none => none
          | some (v, r) =>
              match parseArrTailF fuel r with
              | none => none
              | some (vs, r2) => some (.arr (v :: vs), r2)

def parseArrTailF : Nat → List Char → Option (List Json × List Char)
  | 0, _ => none
  | fuel + 1, cs0 =>
      match skipWs cs0 with
      | ']' :: rest => some ([], rest)
      | ',' :: rest =>
          match parseValueF fuel rest with
          | none => none
          | some (v, r) =>
              match parseArrTailF fuel r with
              | none => none
              | some (vs, r2) => some (v :: vs, r2)
      | _ => none

def parseObjF : Nat → List Char → Option (Json × List Char)
  | 0, _ => none
  | fuel + 1, cs0 =>
      match skipWs cs0 with
      | '\x7d' :: rest => some (.obj [], rest)
      | '"' :: rest =>
          match parseStrBody rest with
          | none => none
          | some (k, r1) =>
              match skipWs r1 with
              | ':' :: r2 =>
                  match parseValueF fuel r2 with
                  | none => none
                  | some (v, r3) =>
                      match parseObjTailF fuel r3 with
                      | none => none
                      | some (kvs, r4) => some (.obj ((String.mk k, v) :: kvs), r4)
              | _ => none
      | _ => none

def parseObjTailF : Nat → List Char → Option (List (String × Json) × List Char)
  | 0, _ => none
  | fuel + 1, cs0 =>
      match skipWs cs0 with
      | '\x7d' :: rest => some ([], rest)
      | ',' :: rest =>
          match skipWs rest with
          | '"' :: r0 =>
              match parseStrBody r0 with
              | none => none
              | some (k, r1) =>
                  match skipWs r1 with
                  | ':' :: r2 =>
                      match parseValueF fuel r2 with
                      | none => none
                      | some (v, r3) =>
                          match parseObjTailF fuel r3 with
                          | none => none
                          | some (kvs, r4) => some ((String.mk k, v) :: kvs, r4)
                  | _ => none
          | _ => none
      | _ => none

end

/-- `json.loads`: parse one JSON value and require only trailing
whitespace after it; any leftover input is a parse error
(`json.JSONDecodeError`).  The fuel bound is generous: every recursive
descent step consumes at least one input character per two fuel units. -/
def jsonParse (s : String) : Option Json :=
  match parseValueF (4 * s.data.length + 16) s.data with
  | none => none
  | some (j, rest) => if (skipWs rest).isEmpty then some j else none

/-! ## Context analyzer (`src/context_analyzer.py`) -/

/-- Association-list lookup for a parsed JSON object (`dict` access; the
embedded responses use distinct keys). -/
def lookupField : List (String × Json) → String → Option Json
  | [], _ => none
  | (k, v) :: rest, key => if k = key then some v else lookupField rest key

/-- Python `dict.get(key, default)`. -/
def dictGetD (fields : List (String × Json)) (key : String) (dflt : Json) : Json :=
  (lookupField fields key).getD dflt

/-- One stored element of `ContextAnalyzer.key_events`:
`{'timestamp': ..., 'type': ..., 'value': ..., 'context': ...}`.  The
`type`/`value`/`context` fields hold whatever JSON values the response
carried (the code performs no type validation). -/
structure KeyEvent where
  timestamp : ℚ
  type : Json
  value : Json
  context : Json
deriving DecidableEq

/-- Mutable context state of `ContextAnalyzer` touched by `_analyze_text`. -/
structure AnalyzerState where
  current_activity : Json
  current_app : Json
  key_events : List KeyEvent
  max_history : Nat
  last_analysis : Option ℚ
deriving DecidableEq

/-- `ContextAnalyzer.__init__` state (activity `"Starting up..."`, app
`"Unknown"`, empty deque of capacity `max_history`, no analysis yet). -/
def initAnalyzerState (max_history : Nat) : AnalyzerState :=
  { current_activity := Json.str "Starting up..."
    current_app := Json.str "Unknown"
    key_events := []
    max_history := max_history
    last_analysis := none }

/-- Python iteration over the `key_info` value: lists yield their elements,
strings their one-character substrings, dicts their keys; other values
raise `TypeError`. -/
def pyIterate : Json → Except PyErr (List Json)
  | .arr xs => Except.ok xs
  | .str s => Except.ok (s.data.map (fun c => Json.str (String.mk [c])))
  | .obj fields => Except.ok (fields.map (fun kv => Json.str kv.1))
  | _ => Except.error PyErr.typeError

/-- One iteration of the `for info in key_info:` loop of `_analyze_text`.
The duplicate scan compares each stored event's `type`/`value` with
`info.get('type')` / `info.get('value')` — *without* defaults, so a missing
key reads as Python `None` (`Json.null`) — while the stored event uses the
defaults `'info'`/`''`/`''`.  A non-dict `info` raises `AttributeError` at
its first `info.get` call (in the scan when events are present, otherwise
while building the stored event); either way nothing is appended and the
loop aborts. -/
def processItem (events : List KeyEvent) (maxlen : Nat) (ts : ℚ) (info : Json) :
    Except PyErr (List KeyEvent) :=
  match info with
  | .obj fields =>
      if events.any (fun e =>
          decide (e.type = dictGetD fields "type" Json.null) &&
          decide (e.value = dictGetD fields "value" Json.null)) then
        Except.ok events
      else
        Except.ok (dequeAppend maxlen events
          { timestamp := ts
            type := dictGetD fields "type" (Json.str "info")
            value := dictGetD fields "value" (Json.str "")
            context := dictGetD fields "context" (Json.str "") })
  | _ => Except.error PyErr.attributeError

/-- The whole `for info in key_info:` loop.  The returned flag is false
when an exception aborted the loop (the events appended before the abort
are kept — Python mutates `self.key_events` in place). -/
def processItems (maxlen : Nat) (ts : ℚ) :
    List KeyEvent → List Json → List KeyEvent × Bool
  | events, [] => (events, true)
  | events, info :: rest =>
      match processItem events maxlen ts info with
      | Except.error _ => (events, false)
      | Except.ok events2 => processItems maxlen ts events2 rest

/-- The `with self._lock:` merge block of `_analyze_text` applied to a
parsed `result`.  A non-dict result raises `AttributeError` at
`result.get('activity', ...)` before any assignment.  For a dict,
`current_activity`/`current_app` are assigned first (defaulting to their
old values), then the `key_info` loop runs; the flag records whether the
whole block completed without an exception. -/
def mergeResult (st : AnalyzerState) (ts : ℚ) (result : Json) :
    AnalyzerState × Bool :=
  match result with
  | .obj fields =>
      let st1 := { st with
        current_activity := dictGetD fields "activity" st.current_activity }
      let st2 := { st1 with
        current_app := dictGetD fields "application" st1.current_app }
      match pyIterate (dictGetD fields "key_info" (Json.arr [])) with
      | Except.error _ => (st2, false)
      | Except.ok items =>
          let (events, ok) := processItems st2.max_history ts st2.key_events items
          ({ st2 with key_events := events }, ok)
  | _ => (st, false)

/-- The fence separator of the response clean-up
(`result_text.split("```")`). -/
def fence : List Char := [btChar, btChar, btChar]

/-- The characters up to (excluding) the next occurrence of the fence, or
all of them when there is none: under the `startswith("```")` guard this is
exactly `result_text.split("```")[1]` applied after dropping the leading
fence. -/
def takeUntilFence : List Char → List Char
  | [] => []
  | c :: rest =>
      if fence.isPrefixOf (c :: rest) then [] else c :: takeUntilFence rest

/-- The response clean-up of `_analyze_text` (strip, unwrap an optional
markdown code fence, drop a leading `json` tag, strip again). -/
def cleanChars (cs0 : List Char) : List Char :=
  let t := stripChars cs0
  let t :=
    if fence.isPrefixOf t then
      let u := takeUntilFence (t.drop 3)
      if ("json".data).isPrefixOf u then u.drop 4 else u
    else t
  stripChars t

def cleanResponse (s : String) : String := String.mk (cleanChars s.data)

/-- `_analyze_text` from the provider's response text onward: clean the
response, `json.loads` it (a parse error is caught and leaves the state
untouched), run the merge block, and set `_last_analysis_time` (to the
later `datetime.now()` value `nowDone`) only when the whole `try:` body
succeeded. -/
def analyzeText (st : AnalyzerState) (ts nowDone : ℚ) (response : String) :
    AnalyzerState :=
  match jsonParse (cleanResponse response) with
  | none => st
  | some result =>
      match mergeResult st ts result with
      | (st2, true) => { st2 with last_analysis := some nowDone }
      | (st2, false) => st2

/-! ## Key-event uniqueness (claims C1 and C10) -/

/-- No two stored key events share the same `(type, value)` pair. -/
def noDupTypeValue : List KeyEvent → Bool
  | [] => true
  | e :: rest =>
      rest.all (fun e2 => !(decide (e.type = e2.type) && decide (e.value = e2.value))) &&
      noDupTypeValue rest

/-- A `key_info` item carrying explicit `type` and `value` fields. -/
def wfItem : Json → Bool
  | .obj fields => (lookupField fields "type").isSome && (lookupField fields "value").isSome
  | _ => false

/-- The items the `for info in key_info:` loop of `_analyze_text` iterates
over for a given parsed result (empty for a non-dict result or a
non-iterable `key_info`). -/
def keyInfoItems : Json → List Json
  | .obj fields =>
      match pyIterate (dictGetD fields "key_info" (Json.arr [])) with
      | Except.ok items => items
      | Except.error _ => []
  | _ => []

theorem noDupTypeValue_drop (l : List KeyEvent) (h : noDupTypeValue l = true) :
    ∀ n, noDupTypeValue (l.drop n) = true := by
  induction l with
  | nil => intro n; simp [List.drop_nil]; rfl
  | cons e rest ih =>
      intro n
      cases n with
      | zero => exact h
      | succ n =>
          simp only [noDupTypeValue, Bool.and_eq_true] at h
          simpa using ih h.2 n

theorem noDupTypeValue_append_single (events : List KeyEvent) (x : KeyEvent)
    (h : noDupTypeValue events = true)
    (hx : ∀ e ∈ events, ¬(e.type = x.type ∧ e.value = x.value)) :
    noDupTypeValue (events ++ [x]) = true := by
  induction events with
  | nil => simp [noDupTypeValue]
  | cons e rest ih =>
      simp only [noDupTypeValue, Bool.and_eq_true] at h
      have hrest := ih h.2 (fun e2 he2 => hx e2 (List.mem_cons_of_mem _ he2))
      simp only [List.cons_append, noDupTypeValue, List.append_eq, List.all_append,
        Bool.and_eq_true]
      refine ⟨⟨h.1, ?_⟩, hrest⟩
      have he := hx e (List.mem_cons_self _ _)
      simp only [List.all_cons, List.all_nil, Bool.and_true]
      simp only [not_and] at he
      by_cases ht : e.type = x.type
      · simp [ht, he ht]
      · simp [ht]

theorem processItem_preserves_noDup (events : List KeyEvent) (maxlen : Nat)
    (ts : ℚ) (info : Json) (events' : List KeyEvent)
    (h : noDupTypeValue events = true) (hwf : wfItem info = true)
    (heq : processItem events maxlen ts info = Except.ok events') :
    noDupTypeValue events' = true := by
  cases info with
  | obj fields =>
      simp only [wfItem, Bool.and_eq_true, Option.isSome_iff_exists] at hwf
      obtain ⟨⟨t, ht⟩, v, hv⟩ := hwf
      have hgt : dictGetD fields "type" Json.null = t := by simp [dictGetD, ht]
      have hgt2 : dictGetD fields "type" (Json.str "info") = t := by simp [dictGetD, ht]
      have hgv : dictGetD fields "value" Json.null = v := by simp [dictGetD, hv]
      have hgv2 : dictGetD fields "value" (Json.str "") = v := by simp [dictGetD, hv]
      simp only [processItem, hgt, hgt2, hgv, hgv2] at heq
      by_cases hany : events.any (fun e => decide (e.type = t) && decide (e.value = v))
      · simp only [hany, if_true, Except.ok.injEq] at heq
        exact heq ▸ h
      · simp only [Bool.not_eq_true] at hany
        simp only [hany, Bool.false_eq_true, if_false, Except.ok.injEq] at heq
        subst heq
        rw [dequeAppend]
        apply noDupTypeValue_drop
        apply noDupTypeValue_append_single _ _ h
        intro e he
        rw [List.any_eq_false] at hany
        have := hany e he
        simp only [Bool.and_eq_true, decide_eq_true_eq, not_and] at this
        simp only [not_and]
        exact this
  | null => simp [processItem] at heq
  | bool b => simp [processItem] at heq
  | num n => simp [processItem] at heq
  | str s => simp [processItem] at heq
  | arr xs => simp [processItem] at heq

theorem processItems_preserve_noDup (maxlen : Nat) (ts : ℚ) :
    ∀ (items : List Json) (events : List KeyEvent),
      noDupTypeValue events = true →
      (∀ info ∈ items, wfItem info = true) →
      noDupTypeValue (processItems maxlen ts events items).1 = true := by
  intro items
  induction items with
  | nil => intro events h _; exact h
  | cons info rest ih =>
      intro events h hwf
      simp only [processItems]
      cases heq : processItem events maxlen ts info with
      | error e => exact h
      | ok events2 =>
          exact ih events2
            (processItem_preserves_noDup events maxlen ts info events2 h
              (hwf info (List.mem_cons_self _ _)) heq)
            (fun i hi => hwf i (List.mem_cons_of_mem _ hi))

/-- **C1 (counterexample).** The claim's uniqueness invariant fails: the
duplicate scan compares stored events against `info.get('type')` /
`info.get('value')` *without* defaults, while the stored event is built
*with* the defaults `'info'`/`''`.  Merging a result whose `key_info` holds
two empty items therefore stores two events that share the `(type, value)`
pair `("info", "")`. -/
theorem mergeResult_uniqueness_counterexample :
    noDupTypeValue ((mergeResult (initAnalyzerState 50) 0
        (Json.obj [("key_info", Json.arr [Json.obj [], Json.obj []])])).1.key_events)
      = false ∧
    ((mergeResult (initAnalyzerState 50) 0
        (Json.obj [("key_info", Json.arr [Json.obj [], Json.obj []])])).1.key_events).length
      = 2 := by
  decide

/-- **C1 (amended).** Whenever `ContextAnalyzer` merges an analysis result
(periodic cycle or `force_analyze`), each returned `key_info` item is
appended to the key-event collection only if no stored event matches the
item's *raw* `type`/`value` fields (read without defaults, so a missing
field reads as `None`).  Consequently, provided every item of the result's
`key_info` carries explicit `type` and `value` fields, the invariant holds:
immediately after every insertion no two stored key events share
`(type, value)` — in particular, two `key_info` items with identical type
and value appearing in one analysis result yield exactly one stored
`KeyEvent`.  (Items lacking `type` or `value` can break the invariant, as
the counterexample shows.) -/
theorem mergeResult_preserves_key_uniqueness (st : AnalyzerState) (ts : ℚ)
    (result : Json) (h1 : noDupTypeValue st.key_events = true)
    (h2 : ∀ info ∈ keyInfoItems result, wfItem info = true) :
    noDupTypeValue ((mergeResult st ts result).1.key_events) = true := by
  cases result with
  | obj fields =>
      simp only [mergeResult]
      cases hpi : pyIterate (dictGetD fields "key_info" (Json.arr [])) with
      | error e => exact h1
      | ok items =>
          have h2' : ∀ info ∈ items, wfItem info = true := by
            intro info hi
            apply h2
            simp only [keyInfoItems, hpi]
            exact hi
          exact processItems_preserve_noDup _ ts items st.key_events h1 h2'
  | null => exact h1
  | bool b => exact h1
  | num n => exact h1
  | str s => exact h1
  | arr xs => exact h1

/-- The spec's own duplicate example: two `otp`/`123456` items with
different contexts in one analysis result. -/
def otpDupResult : Json :=
  Json.obj [("key_info", Json.arr
    [Json.obj [("type", Json.str "otp"), ("value", Json.str "123456"),
               ("context", Json.str "A")],
     Json.obj [("type", Json.str "otp"), ("value", Json.str "123456"),
               ("context", Json.str "B")]])]

/-- Witness for `mergeResult_preserves_key_uniqueness`: on the spec's
`otp`/`123456` example both hypotheses hold, the merged collection is
duplicate-free, and exactly one event was stored. -/
theorem mergeResult_key_uniqueness_witness :
    (∀ info ∈ keyInfoItems otpDupResult, wfItem info = true) ∧
    noDupTypeValue ((mergeResult (initAnalyzerState 50) 0 otpDupResult).1.key_events)
      = true ∧
    ((mergeResult (initAnalyzerState 50) 0 otpDupResult).1.key_events).length = 1 :=
  ⟨by decide,
   mergeResult_preserves_key_uniqueness (initAnalyzerState 50) 0 otpDupResult
     (by decide) (by decide),
   by decide⟩

instance : DecidableEq (Except PyErr (List KeyEvent)) := fun a b =>
  match a, b with
  | Except.ok x, Except.ok y =>
      match decEq x y with
      | isTrue h => isTrue (by rw [h])
      | isFalse h => isFalse (fun hh => h (by cases hh; rfl))
  | Except.error x, Except.error y =>
      match decEq x y with
      | isTrue h => isTrue (by rw [h])
      | isFalse h => isFalse (fun hh => h (by cases hh; rfl))
  | Except.ok _, Except.error _ => isFalse (fun h => Except.noConfusion h)
  | Except.error _, Except.ok _ => isFalse (fun h => Except.noConfusion h)

/-- **C10 (counterexample).** The claim says the defaulted fields
participate in the `(type, value)` duplicate check like any other values.
They do not: with a stored event `("info", "")` (built from defaults), a
new field-less item is *not* judged a duplicate — the scan compares the
stored `"info"`/`""` against the item's raw `info.get('type')` /
`info.get('value')`, i.e. `None` — and a second defaulted event is
appended. -/
theorem processItem_defaults_counterexample :
    processItem
        [{ timestamp := 0, type := Json.str "info", value := Json.str "",
           context := Json.str "" }] 50 1 (Json.obj [])
      ≠ Except.ok
        [{ timestamp := 0, type := Json.str "info", value := Json.str "",
           context := Json.str "" }] ∧
    processItem
        [{ timestamp := 0, type := Json.str "info", value := Json.str "",
           context := Json.str "" }] 50 1 (Json.obj [])
      = Except.ok
        [{ timestamp := 0, type := Json.str "info", value := Json.str "",
           context := Json.str "" },
         { timestamp := 1, type := Json.str "info", value := Json.str "",
           context := Json.str "" }] := by
  decide

/-- **C10 (amended).** When a `key_info` item in a successfully parsed
analysis response lacks the `type`, `value`, or `context` field, the stored
`KeyEvent` is filled with the defaults `type="info"` (a tag outside the
spec's documented tag set), `value=""`, and `context=""` — but the
defaulted fields do *not* participate in the `(type, value)` duplicate
check: the check reads the item's raw fields (a missing field reads as
`None`), so the item is appended whenever no stored event has
`(type, value) = (None, None)`, even when a stored event already carries
the defaulted pair `("info", "")`. -/
theorem processItem_fills_defaults (events : List KeyEvent) (maxlen : Nat)
    (ts : ℚ) (fields : List (String × Json))
    (h1 : lookupField fields "type" = none)
    (h2 : lookupField fields "value" = none)
    (h3 : lookupField fields "context" = none)
    (h4 : ∀ e ∈ events, ¬(e.type = Json.null ∧ e.value = Json.null)) :
    processItem events maxlen ts (Json.obj fields)
      = Except.ok (dequeAppend maxlen events
          { timestamp := ts, type := Json.str "info", value := Json.str "",
            context := Json.str "" }) := by
  have hany : events.any (fun e =>
      decide (e.type = Json.null) && decide (e.value = Json.null)) = false := by
    rw [List.any_eq_false]
    intro e he
    have := h4 e he
    simp only [Bool.and_eq_true, decide_eq_true_eq, not_and] at this ⊢
    intro hh
    simp [this hh]
  simp only [processItem, dictGetD, h1, h2, h3, Option.getD_none, hany,
    Bool.false_eq_true, if_false]

/-- Witness for `processItem_fills_defaults`: a field-less item appended to
a collection that already stores the defaulted event — the defaults are
stored again rather than being judged a duplicate. -/
theorem processItem_fills_defaults_witness :
    processItem
        [{ timestamp := 0, type := Json.str "info", value := Json.str "",
           context := Json.str "" }] 50 1 (Json.obj [])
      = Except.ok (dequeAppend 50
          [{ timestamp := 0, type := Json.str "info", value := Json.str "",
             context := Json.str "" }]
          { timestamp := 1, type := Json.str "info", value := Json.str "",
            context := Json.str "" }) :=
  processItem_fills_defaults
    [{ timestamp := 0, type := Json.str "info", value := Json.str "",
       context := Json.str "" }] 50 1 [] rfl rfl rfl (by decide)

/-! ## Parse-failure handling (claims C4 and C5) -/

/-- The analysis response, after clean-up, either fails `json.loads` or
parses to something other than a JSON object. -/
def parsesToNonObject (r : String) : Bool :=
  match jsonParse (cleanResponse r) with
  | none => true
  | some (Json.obj _) => false
  | some _ => true

/-- The required response shape of the claim (and of the prompt's schema
instruction): `{activity: string, application: string, key_info:
[{type, value, context}]}`.  Modelled from the claim's words for the C4
counterexample. -/
def conformsToSchema : Json → Bool
  | .obj fields =>
      (match lookupField fields "activity" with
       | some (Json.str _) => true | _ => false) &&
      (match lookupField fields "application" with
       | some (Json.str _) => true | _ => false) &&
      (match lookupField fields "key_info" with
       | some (Json.arr items) =>
           items.all (fun i =>
             match i with
             | Json.obj f =>
                 (lookupField f "type").isSome && (lookupField f "value").isSome &&
                 (lookupField f "context").isSome
             | _ => false)
       | _ => false)
  | _ => false

/-- **C4 (counterexample).** A response that is valid JSON but fails the
required shape does *not* always leave the state unmutated: for
`{"activity": "NEW", "key_info": [1]}` (no string `application`, `key_info`
items not objects) the merge block assigns `current_activity` before the
`key_info` loop raises `AttributeError` on the integer item, so the cycle
is abandoned mid-way with `activity` already changed (while `last_analysis`
stays unset). -/
theorem analyzeText_partial_mutation_counterexample :
    (jsonParse (cleanResponse
        "\x7b\"activity\": \"NEW\", \"key_info\": [1]\x7d")).all
      (fun j => !(conformsToSchema j)) = true ∧
    (jsonParse (cleanResponse
        "\x7b\"activity\": \"NEW\", \"key_info\": [1]\x7d")).isSome = true ∧
    (analyzeText (initAnalyzerState 50) 0 7
        "\x7b\"activity\": \"NEW\", \"key_info\": [1]\x7d").current_activity
      ≠ (initAnalyzerState 50).current_activity ∧
    (analyzeText (initAnalyzerState 50) 0 7
        "\x7b\"activity\": \"NEW\", \"key_info\": [1]\x7d").last_analysis
      = (initAnalyzerState 50).last_analysis := by
  decide

/-- **C4 (amended).** For every analysis response that is syntactically
invalid JSON, or valid JSON whose top-level value is not an object, the
aggregation cycle is abandoned with no state mutation: activity,
application, the key-event collection, and `last_analysis` are all
unchanged from their pre-cycle values.  (A top-level *object* is merged
without shape validation, and a malformed `key_info` can leave a partial
mutation, as the counterexample shows.) -/
theorem analyzeText_nonobject_preserves_state (st : AnalyzerState)
    (ts nowDone : ℚ) (r : String) (h : parsesToNonObject r = true) :
    analyzeText st ts nowDone r = st := by
  unfold analyzeText
  cases hp : jsonParse (cleanResponse r) with
  | none => rfl
  | some j =>
      cases j with
      | obj fields => simp [parsesToNonObject, hp] at h
      | null => rfl
      | bool b => rfl
      | num n => rfl
      | str s => rfl
      | arr xs => rfl

/-- Witness for `analyzeText_nonobject_preserves_state`: a valid JSON array
response leaves the freshly initialised state untouched. -/
theorem analyzeText_nonobject_witness :
    parsesToNonObject "[1, 2]" = true ∧
    analyzeText (initAnalyzerState 50) 0 7 "[1, 2]" = initAnalyzerState 50 :=
  ⟨by decide,
   analyzeText_nonobject_preserves_state (initAnalyzerState 50) 0 7 "[1, 2]"
     (by decide)⟩

/-- **C5.** If the analysis capability returns malformed (syntactically
invalid) JSON, the cycle is abandoned and `activity` and `last_analysis`
remain unchanged from their pre-cycle values (indeed the whole state is
unchanged). -/
theorem analyzeText_parse_error_preserves_state (st : AnalyzerState)
    (ts nowDone : ℚ) (r : String)
    (h : jsonParse (cleanResponse r) = none) :
    analyzeText st ts nowDone r = st ∧
    (analyzeText st ts nowDone r).current_activity = st.current_activity ∧
    (analyzeText st ts nowDone r).last_analysis = st.last_analysis := by
  have hst : analyzeText st ts nowDone r = st := by
    unfold analyzeText
    rw [h]
  exact ⟨hst, by rw [hst], by rw [hst]⟩

/-- Witness for `analyzeText_parse_error_preserves_state` on a concrete
malformed response. -/
theorem analyzeText_parse_error_witness :
    jsonParse (cleanResponse "\x7binvalid json") = none ∧
    analyzeText (initAnalyzerState 50) 0 7 "\x7binvalid json"
      = initAnalyzerState 50 :=
  ⟨by decide,
   (analyzeText_parse_error_preserves_state (initAnalyzerState 50) 0 7
     "\x7binvalid json" (by decide)).1⟩

/-! ## Prompt-text truncation (claim C6) -/

/-- `max_text_length = 4000` in `_analyze_text`. -/
def maxTextLength : Nat := 4000

/-- The truncation applied to the screen text before it is embedded in the
prompt: `if len(text) > max_text_length: text = text[:max_text_length] +
"..."`. -/
def truncateForPrompt (text : String) : String :=
  if maxTextLength < text.data.length then
    String.mk (text.data.take maxTextLength ++ "...".data)
  else text

/-- A 4001-character screen text. -/
def longScreenText : String := String.mk (List.replicate 4001 'a')

theorem string_length_eq_data_length (s : String) : s.length = s.data.length := rfl

theorem string_mk_length (l : List Char) : (String.mk l).length = l.length := rfl

/-- **C6 (counterexample).** The claim says the text embedded in the prompt
is at most 4000 characters; the code appends a three-character ellipsis
marker *after* truncating to 4000, so a 4001-character input is embedded as
4003 characters. -/
theorem truncateForPrompt_counterexample :
    maxTextLength < longScreenText.length ∧
    maxTextLength < (truncateForPrompt longScreenText).length := by
  have hd : longScreenText.data = List.replicate 4001 'a' := rfl
  have hcond : maxTextLength < longScreenText.data.length := by
    rw [hd, List.length_replicate]
    norm_num [maxTextLength]
  have h1 : maxTextLength < longScreenText.length := by
    rw [string_length_eq_data_length]
    exact hcond
  refine ⟨h1, ?_⟩
  have he : truncateForPrompt longScreenText
      = String.mk (longScreenText.data.take maxTextLength ++ "...".data) := by
    unfold truncateForPrompt
    rw [if_pos hcond]
  rw [he, string_mk_length, List.length_append, List.length_take, hd,
    List.length_replicate]
  norm_num [maxTextLength]

/-- **C6 (amended).** For every input text, an input of at most 4000
characters is embedded in the prompt unchanged, and an input longer than
the 4000-character budget is truncated to the budget and suffixed with a
three-character ellipsis marker, so the text embedded in the prompt is at
most 4003 characters (4003 exactly in the truncated case). -/
theorem truncateForPrompt_bounds (t : String) :
    (t.length ≤ maxTextLength → truncateForPrompt t = t) ∧
    (maxTextLength < t.length →
      truncateForPrompt t = String.mk (t.data.take maxTextLength ++ "...".data) ∧
      (truncateForPrompt t).length = maxTextLength + 3) ∧
    (truncateForPrompt t).length ≤ maxTextLength + 3 := by
  by_cases h : maxTextLength < t.data.length
  · have he : truncateForPrompt t
        = String.mk (t.data.take maxTextLength ++ "...".data) := by
      unfold truncateForPrompt
      rw [if_pos h]
    have hl : (truncateForPrompt t).length = maxTextLength + 3 := by
      rw [he, string_mk_length, List.length_append, List.length_take]
      have h3 : "...".data.length = 3 := rfl
      rw [h3]
      omega
    refine ⟨fun hle => ?_, fun _ => ⟨he, hl⟩, by rw [hl]⟩
    rw [string_length_eq_data_length] at hle
    omega
  · have he : truncateForPrompt t = t := by
      unfold truncateForPrompt
      rw [if_neg h]
    refine ⟨fun _ => he, fun hlt => ?_, ?_⟩
    · rw [string_length_eq_data_length] at hlt
      omega
    · rw [he, string_length_eq_data_length]
      omega

/-- Witness for `truncateForPrompt_bounds`, applying it on both sides of
the budget: a short text is embedded unchanged, and the 4001-character text
is embedded as exactly 4003 characters. -/
theorem truncateForPrompt_bounds_witness :
    truncateForPrompt "short text" = "short text" ∧
    (truncateForPrompt longScreenText).length = maxTextLength + 3 := by
  have hlong : maxTextLength < longScreenText.length := by
    have hd : longScreenText.data = List.replicate 4001 'a' := rfl
    rw [string_length_eq_data_length, hd, List.length_replicate]
    norm_num [maxTextLength]
  exact ⟨(truncateForPrompt_bounds "short text").1 (by decide),
    ((truncateForPrompt_bounds longScreenText).2.1 hlong).2⟩

/-! ## Code-fence unwrapping (claim C8) -/

/-- Wrapping a response body in `json`-tagged markdown fence lines. -/
def wrapJsonFence (r : String) : String := "```json\n" ++ r ++ "\n```"

/-- Wrapping a response body in plain markdown fence lines. -/
def wrapPlainFence (r : String) : String := "```\n" ++ r ++ "\n```"

/-- Whether a character sequence contains an occurrence of the fence
separator (three consecutive backticks). -/
def hasFence : List Char → Bool
  | [] => false
  | c :: rest => fence.isPrefixOf (c :: rest) || hasFence rest

theorem fence_isPrefixOf_cons3 (a b c : Char) (l : List Char) :
    fence.isPrefixOf (a :: b :: c :: l)
      = ((btChar == a) && ((btChar == b) && (btChar == c))) := by
  simp [fence, List.isPrefixOf]

theorem hasFence_cons_eq (c : Char) (l : List Char) :
    hasFence (c :: l) = (fence.isPrefixOf (c :: l) || hasFence l) := rfl

theorem hasFence_cons_ne (c : Char) (l : List Char) (h : (btChar == c) = false) :
    hasFence (c :: l) = hasFence l := by
  rw [hasFence_cons_eq]
  have hp : fence.isPrefixOf (c :: l) = false := by
    simp [fence, List.isPrefixOf, h]
  rw [hp, Bool.false_or]

theorem takeUntilFence_through (z : List Char) (h : hasFence z = false) :
    takeUntilFence (z ++ '\n' :: fence) = z ++ ['\n'] := by
  induction z with
  | nil => decide
  | cons c z' ih =>
      rw [hasFence_cons_eq, Bool.or_eq_false_iff] at h
      obtain ⟨hp, hz⟩ := h
      have hpre : fence.isPrefixOf (c :: (z' ++ '\n' :: fence)) = false := by
        cases z' with
        | nil =>
            simp [fence, List.isPrefixOf,
              show (btChar == '\n') = false from by decide]
        | cons a z'' =>
            cases z'' with
            | nil =>
                simp [fence, List.isPrefixOf,
                  show (btChar == '\n') = false from by decide]
            | cons b z''' =>
                rw [List.cons_append, List.cons_append,
                  fence_isPrefixOf_cons3]
                rw [fence_isPrefixOf_cons3] at hp
                exact hp
      rw [List.cons_append, takeUntilFence, if_neg (by rw [hpre]; exact fun hh => Bool.noConfusion hh)]
      rw [ih hz, List.cons_append]

theorem ltrim_cons_not_space (c : Char) (l : List Char)
    (h : isPySpace c = false) : ltrimChars (c :: l) = c :: l := by
  simp [ltrimChars, List.dropWhile_cons, h]

theorem ltrim_cons_space (c : Char) (l : List Char)
    (h : isPySpace c = true) : ltrimChars (c :: l) = ltrimChars l := by
  simp [ltrimChars, List.dropWhile_cons, h]

theorem rtrim_append_not_space (l : List Char) (d : Char)
    (h : isPySpace d = false) : rtrimChars (l ++ [d]) = l ++ [d] := by
  simp [rtrimChars, List.reverse_append, List.dropWhile_cons, h]

theorem rtrim_append_space (l : List Char) (d : Char)
    (h : isPySpace d = true) : rtrimChars (l ++ [d]) = rtrimChars l := by
  simp [rtrimChars, List.reverse_append, List.dropWhile_cons, h]

theorem stripChars_cons_append (c d : Char) (l : List Char)
    (hc : isPySpace c = false) (hd : isPySpace d = false) :
    stripChars (c :: l ++ [d]) = c :: l ++ [d] := by
  rw [stripChars]
  rw [show (c :: l ++ [d] : List Char) = c :: (l ++ [d]) from rfl]
  rw [ltrim_cons_not_space _ _ hc]
  rw [show (c :: (l ++ [d]) : List Char) = (c :: l) ++ [d] from rfl]
  exact rtrim_append_not_space _ _ hd

theorem stripChars_pad (c d : Char) (l : List Char)
    (hc : isPySpace c = true) (hd : isPySpace d = true) :
    stripChars (c :: l ++ [d]) = stripChars l := by
  rw [stripChars, stripChars]
  rw [show (c :: l ++ [d] : List Char) = c :: (l ++ [d]) from rfl]
  rw [ltrim_cons_space _ _ hc]
  have hsplit : ltrimChars (l ++ [d])
      = if (ltrimChars l).isEmpty then ltrimChars [d] else ltrimChars l ++ [d] := by
    simp [ltrimChars, List.dropWhile_append]
  rw [hsplit]
  by_cases he : (ltrimChars l).isEmpty
  · rw [if_pos he]
    have h1 : ltrimChars [d] = ([] : List Char) := by
      simp [ltrimChars, List.dropWhile_cons, hd]
    have h2 : ltrimChars l = ([] : List Char) := List.isEmpty_iff.mp he
    rw [h1, h2]
  · rw [if_neg he]
    exact rtrim_append_space _ _ hd

theorem dropWhile_dropWhile (p : Char → Bool) (l : List Char) :
    (l.dropWhile p).dropWhile p = l.dropWhile p := by
  induction l with
  | nil => rfl
  | cons c l ih =>
      by_cases h : p c
      · simp [List.dropWhile_cons, h, ih]
      · simp [List.dropWhile_cons, h]

theorem ltrim_idem (l : List Char) : ltrimChars (ltrimChars l) = ltrimChars l :=
  dropWhile_dropWhile isPySpace l

theorem rtrim_idem (l : List Char) : rtrimChars (rtrimChars l) = rtrimChars l := by
  simp [rtrimChars, List.reverse_reverse, dropWhile_dropWhile]

theorem rtrim_prefix_self (y : List Char) : rtrimChars y <+: y := by
  have h1 : y.reverse.dropWhile isPySpace <:+ y.reverse :=
    List.dropWhile_suffix _
  have h2 := List.reverse_prefix.mpr h1
  rwa [List.reverse_reverse] at h2

theorem ltrim_of_ltrimmed (y : List Char) (h : ltrimChars y = y) :
    ltrimChars (rtrimChars y) = rtrimChars y := by
  cases hr : rtrimChars y with
  | nil => rfl
  | cons c m =>
      have hpre : rtrimChars y <+: y := rtrim_prefix_self y
      rw [hr] at hpre
      obtain ⟨t, ht⟩ := hpre
      have hc : isPySpace c = false := by
        by_contra hcc
        rw [Bool.not_eq_false] at hcc
        rw [← ht] at h
        rw [show ((c :: m) ++ t : List Char) = c :: (m ++ t) from rfl] at h
        rw [ltrim_cons_space _ _ hcc] at h
        have hle : (ltrimChars (m ++ t)).length ≤ (m ++ t).length :=
          (List.dropWhile_sublist _).length_le
        rw [h] at hle
        simp at hle
      exact ltrim_cons_not_space _ _ hc

theorem stripChars_idem (l : List Char) :
    stripChars (stripChars l) = stripChars l := by
  rw [stripChars, stripChars]
  rw [ltrim_of_ltrimmed (ltrimChars l) (ltrim_idem l)]
  exact rtrim_idem _

theorem hasFence_append_right (l₁ l₂ : List Char) (h : hasFence l₂ = true) :
    hasFence (l₁ ++ l₂) = true := by
  induction l₁ with
  | nil => exact h
  | cons c l ih =>
      rw [List.cons_append, hasFence_cons_eq, ih, Bool.or_true]

theorem isPrefixOf_extend (l m m' : List Char) (h : l.isPrefixOf m = true) :
    l.isPrefixOf (m ++ m') = true := by
  rw [ List.isPrefixOf_iff_prefix] at h ⊢
  exact h.trans (List.prefix_append m m')

theorem hasFence_append_left (l₁ l₂ : List Char) (h : hasFence l₁ = true) :
    hasFence (l₁ ++ l₂) = true := by
  induction l₁ with
  | nil => exact absurd h (by simp [hasFence])
  | cons c l ih =>
      rw [hasFence_cons_eq, Bool.or_eq_true] at h
      rw [List.cons_append, hasFence_cons_eq]
      cases h with
      | inl hp =>
          rw [show (c :: (l ++ l₂) : List Char) = (c :: l) ++ l₂ from rfl]
          rw [isPrefixOf_extend _ _ _ hp, Bool.true_or]
      | inr hr => rw [ih hr, Bool.or_true]

theorem hasFence_of_prefix (y x : List Char) (h : y <+: x)
    (hx : hasFence x = false) : hasFence y = false := by
  by_contra hy
  rw [Bool.not_eq_false] at hy
  obtain ⟨t, rfl⟩ := h
  rw [hasFence_append_left _ _ hy] at hx
  exact Bool.noConfusion hx

theorem hasFence_of_suffix (y x : List Char) (h : y <:+ x)
    (hx : hasFence x = false) : hasFence y = false := by
  by_contra hy
  rw [Bool.not_eq_false] at hy
  obtain ⟨t, rfl⟩ := h
  rw [hasFence_append_right _ _ hy] at hx
  exact Bool.noConfusion hx

theorem hasFence_strip (l : List Char) (h : hasFence l = false) :
    hasFence (stripChars l) = false := by
  have h1 : hasFence (ltrimChars l) = false :=
    hasFence_of_suffix _ _ (List.dropWhile_suffix _) h
  exact hasFence_of_prefix _ _ (rtrim_prefix_self _) h1

theorem not_fence_prefix_of_no_fence (l : List Char) (h : hasFence l = false) :
    fence.isPrefixOf l = false := by
  cases l with
  | nil => rfl
  | cons c rest =>
      rw [hasFence_cons_eq, Bool.or_eq_false_iff] at h
      exact h.1

theorem cleanChars_no_fence (l : List Char) (h : hasFence l = false) :
    cleanChars l = stripChars l := by
  rw [cleanChars]
  simp only
  rw [if_neg (by simp [not_fence_prefix_of_no_fence _ (hasFence_strip _ h)])]
  exact stripChars_idem l

theorem cleanChars_wrapJson (r : List Char) (h : hasFence r = false) :
    cleanChars (btChar :: btChar :: btChar ::
      'j' :: 's' :: 'o' :: 'n' :: '\n' :: (r ++ '\n' :: fence)) = stripChars r := by
  rw [cleanChars]
  simp only
  have hW : (btChar :: btChar :: btChar ::
      'j' :: 's' :: 'o' :: 'n' :: '\n' :: (r ++ '\n' :: fence) : List Char)
      = btChar :: (btChar :: btChar ::
        'j' :: 's' :: 'o' :: 'n' :: '\n' :: (r ++ ['\n', btChar, btChar])) ++ [btChar] := by
    simp [fence, List.append_assoc]
  have hbt : isPySpace btChar = false := by decide
  have hstrip : stripChars (btChar :: btChar :: btChar ::
      'j' :: 's' :: 'o' :: 'n' :: '\n' :: (r ++ '\n' :: fence))
      = btChar :: btChar :: btChar ::
        'j' :: 's' :: 'o' :: 'n' :: '\n' :: (r ++ '\n' :: fence) := by
    rw [hW, stripChars_cons_append _ _ _ hbt hbt, ← hW]
  rw [hstrip]
  rw [if_pos (by
    rw [fence_isPrefixOf_cons3]
    simp [show (btChar == btChar) = true from by decide])]
  rw [show ((btChar :: btChar :: btChar ::
      'j' :: 's' :: 'o' :: 'n' :: '\n' :: (r ++ '\n' :: fence) : List Char).drop 3)
      = 'j' :: 's' :: 'o' :: 'n' :: '\n' :: (r ++ '\n' :: fence) from rfl]
  have hz : ('j' :: 's' :: 'o' :: 'n' :: '\n' :: (r ++ '\n' :: fence) : List Char)
      = ('j' :: 's' :: 'o' :: 'n' :: '\n' :: r) ++ '\n' :: fence := by
    simp
  rw [hz]
  have hzf : hasFence ('j' :: 's' :: 'o' :: 'n' :: '\n' :: r) = false := by
    rw [hasFence_cons_ne _ _ (by decide), hasFence_cons_ne _ _ (by decide),
      hasFence_cons_ne _ _ (by decide), hasFence_cons_ne _ _ (by decide),
      hasFence_cons_ne _ _ (by decide)]
    exact h
  rw [takeUntilFence_through _ hzf]
  rw [if_pos (by simp [List.isPrefixOf])]
  rw [show ((('j' :: 's' :: 'o' :: 'n' :: '\n' :: r) ++ ['\n'] : List Char).drop 4)
      = ('\n' :: r) ++ ['\n'] from by simp]
  rw [show (('\n' :: r) ++ ['\n'] : List Char) = '\n' :: r ++ ['\n'] from rfl]
  exact stripChars_pad _ _ _ (by decide) (by decide)

theorem cleanChars_wrapPlain (r : List Char) (h : hasFence r = false) :
    cleanChars (btChar :: btChar :: btChar ::
      '\n' :: (r ++ '\n' :: fence)) = stripChars r := by
  rw [cleanChars]
  simp only
  have hW : (btChar :: btChar :: btChar :: '\n' :: (r ++ '\n' :: fence) : List Char)
      = btChar :: (btChar :: btChar ::
        '\n' :: (r ++ ['\n', btChar, btChar])) ++ [btChar] := by
    simp [fence, List.append_assoc]
  have hbt : isPySpace btChar = false := by decide
  have hstrip : stripChars (btChar :: btChar :: btChar :: '\n' :: (r ++ '\n' :: fence))
      = btChar :: btChar :: btChar :: '\n' :: (r ++ '\n' :: fence) := by
    rw [hW, stripChars_cons_append _ _ _ hbt hbt, ← hW]
  rw [hstrip]
  rw [if_pos (by
    rw [fence_isPrefixOf_cons3]
    simp [show (btChar == btChar) = true from by decide])]
  rw [show ((btChar :: btChar :: btChar :: '\n' :: (r ++ '\n' :: fence) : List Char).drop 3)
      = '\n' :: (r ++ '\n' :: fence) from rfl]
  have hz : ('\n' :: (r ++ '\n' :: fence) : List Char) = ('\n' :: r) ++ '\n' :: fence := by
    simp
  rw [hz]
  have hzf : hasFence ('\n' :: r) = false := by
    rw [hasFence_cons_ne _ _ (by decide)]
    exact h
  rw [takeUntilFence_through _ hzf]
  rw [if_neg (by
    simp [List.isPrefixOf, show ('j' == '\n') = false from by decide])]
  rw [show (('\n' :: r) ++ ['\n'] : List Char) = '\n' :: r ++ ['\n'] from rfl]
  exact stripChars_pad _ _ _ (by decide) (by decide)

/-- **C8 (amended).** For every analysis response body `r` containing no
occurrence of three consecutive backticks, processing a response consisting
of `r` wrapped in markdown code fence lines (plain or `json`-tagged) yields
the same cleaned text, hence the same parse result and the same state
update, as processing the bare response `r`.  (A fence occurrence inside
`r` breaks this, as the counterexample shows: the unwrapping cuts the
response at the inner fence.) -/
theorem fenced_response_equivalent (r : String) (h : hasFence r.data = false) :
    cleanResponse (wrapJsonFence r) = cleanResponse r ∧
    cleanResponse (wrapPlainFence r) = cleanResponse r ∧
    jsonParse (cleanResponse (wrapJsonFence r)) = jsonParse (cleanResponse r) ∧
    jsonParse (cleanResponse (wrapPlainFence r)) = jsonParse (cleanResponse r) ∧
    ∀ st ts nowDone,
      analyzeText st ts nowDone (wrapJsonFence r) = analyzeText st ts nowDone r ∧
      analyzeText st ts nowDone (wrapPlainFence r) = analyzeText st ts nowDone r := by
  have d1 : ("```json\n").data
      = btChar :: btChar :: btChar :: 'j' :: 's' :: 'o' :: 'n' :: '\n' :: [] := by
    decide
  have d2 : ("\n```").data = '\n' :: fence := by decide
  have d3 : ("```\n").data = btChar :: btChar :: btChar :: '\n' :: [] := by decide
  have hdataJ : (wrapJsonFence r).data
      = btChar :: btChar :: btChar ::
        'j' :: 's' :: 'o' :: 'n' :: '\n' :: (r.data ++ '\n' :: fence) := by
    show (("```json\n" ++ r ++ "\n```" : String)).data = _
    rw [String.data_append, String.data_append, d1, d2]
    simp
  have hdataP : (wrapPlainFence r).data
      = btChar :: btChar :: btChar :: '\n' :: (r.data ++ '\n' :: fence) := by
    show (("```\n" ++ r ++ "\n```" : String)).data = _
    rw [String.data_append, String.data_append, d3, d2]
    simp
  have h1 : cleanResponse (wrapJsonFence r) = cleanResponse r := by
    rw [cleanResponse, cleanResponse, hdataJ, cleanChars_wrapJson r.data h,
      cleanChars_no_fence r.data h]
  have h2 : cleanResponse (wrapPlainFence r) = cleanResponse r := by
    rw [cleanResponse, cleanResponse, hdataP, cleanChars_wrapPlain r.data h,
      cleanChars_no_fence r.data h]
  refine ⟨h1, h2, by rw [h1], by rw [h2], fun st ts nowDone => ⟨?_, ?_⟩⟩
  · rw [analyzeText, analyzeText, h1]
  · rw [analyzeText, analyzeText, h2]

/-- Witness for `fenced_response_equivalent` on a concrete fence-free
response body. -/
theorem fenced_response_equivalent_witness :
    hasFence ("\x7b\"activity\": \"ok\"\x7d" : String).data = false ∧
    analyzeText (initAnalyzerState 50) 0 7
        (wrapJsonFence "\x7b\"activity\": \"ok\"\x7d")
      = analyzeText (initAnalyzerState 50) 0 7 "\x7b\"activity\": \"ok\"\x7d" :=
  ⟨by decide,
   ((fenced_response_equivalent "\x7b\"activity\": \"ok\"\x7d" (by decide)).2.2.2.2
     (initAnalyzerState 50) 0 7).1⟩

/-- **C8 (counterexample).** For a response body containing a fence
occurrence inside a JSON string value, wrapping it in a `json` code fence
does *not* yield the same parse result or state update: the unwrap cuts the
text at the inner fence, turning a parseable response into a parse error,
so the bare response completes a cycle (setting `last_analysis`) while the
wrapped one is abandoned. -/
theorem fenced_response_counterexample :
    jsonParse (cleanResponse (wrapJsonFence "\x7b\"a\": \"``` x\"\x7d")) = none ∧
    jsonParse (cleanResponse "\x7b\"a\": \"``` x\"\x7d")
      = some (Json.obj [("a", Json.str "``` x")]) ∧
    (analyzeText (initAnalyzerState 50) 0 7
        (wrapJsonFence "\x7b\"a\": \"``` x\"\x7d")).last_analysis
      ≠ (analyzeText (initAnalyzerState 50) 0 7
        "\x7b\"a\": \"``` x\"\x7d").last_analysis := by
  decide
